import Mathlib

/-!
Verification development for the PLY (Polygon File Format) decoder of the
repository (function parsePLYWithExpandedBuffer and its helpers).  The
TypeScript source is embedded shallowly: byte buffers become a length plus a
byte-valued function, JavaScript numbers become exact rationals extended with
NaN, the two infinities and undefined, and thrown errors become Except values
carrying the message's character codes.
-/

set_option maxRecDepth 100000

namespace PLY

/-- Decidable equality of Except values, so that concrete parse results can
be checked by decide. -/
instance exceptDecEq {ε α : Type} [DecidableEq ε] [DecidableEq α] :
    DecidableEq (Except ε α) := fun x y =>
  match x, y with
  | .ok a, .ok b =>
    match decEq a b with
    | isTrue h => isTrue (by rw [h])
    | isFalse h => isFalse (fun hh => h (Except.ok.inj hh))
  | .error a, .error b =>
    match decEq a b with
    | isTrue h => isTrue (by rw [h])
    | isFalse h => isFalse (fun hh => h (Except.error.inj hh))
  | .ok _, .error _ => isFalse (fun hh => Except.noConfusion hh)
  | .error _, .ok _ => isFalse (fun hh => Except.noConfusion hh)

/-- Character codes of a Lean string literal, used to write the byte strings
appearing in the source (error messages, property names, type tokens)
readably.  All such strings are ASCII, where one byte is one character. -/
def str (s : String) : List Nat := s.toList.map Char.toNat

/-- Model of a JavaScript ArrayBuffer as viewed through Uint8Array / DataView:
a byte length and a byte-valued function.  Reads reduce the stored value mod
256, as a typed array stores octets. -/
structure Bytes where
  len : Nat
  byteAt : Nat → Nat

/-- Reading one byte of the buffer (Uint8Array indexing / DataView getUint8). -/
def Bytes.get (b : Bytes) (i : Nat) : Nat := b.byteAt i % 256

/-- A concrete buffer built from a list of byte values. -/
def Bytes.ofList (l : List Nat) : Bytes := ⟨l.length, fun i => l.getD i 0⟩

/-- The rational m * base ^ e, written with natural-number powers and
Rat.divInt so that it evaluates by reduction. -/
def qscale (m : Int) (base : Nat) (e : Int) : ℚ :=
  if 0 ≤ e then ((m * ((base ^ e.toNat : Nat) : Int) : Int) : ℚ)
  else Rat.divInt m ((base ^ (-e).toNat : Nat) : Int)

/-- Exact division of rationals, written with Rat.divInt so that it evaluates
by reduction (used only with a nonzero divisor). -/
def qdiv (a b : ℚ) : ℚ := Rat.divInt (a.num * (b.den : Int)) ((a.den : Int) * b.num)

/-- A JavaScript number (an IEEE double) as it flows through the decoder,
modelled exactly: a rational for the finite values, NaN, the two infinities,
and undefined for JS array reads past the end.  Rounding of float arithmetic
is abstracted to exact rational arithmetic. -/
inductive JSNum where
  | num (q : ℚ)
  | nan
  | inf
  | negInf
  | undefined
deriving DecidableEq, Repr

/-- JavaScript division as used by the decoder (color / 255); undefined in an
arithmetic position behaves as NaN, division by zero follows IEEE rules
(negative zero is identified with zero). -/
def JSNum.div : JSNum → JSNum → JSNum
  | .num a, .num b =>
    if b = 0 then (if a = 0 then .nan else if 0 < a then .inf else .negInf)
    else .num (qdiv a b)
  | .inf, .num b => if b < 0 then .negInf else .inf
  | .negInf, .num b => if b < 0 then .inf else .negInf
  | .num _, .inf => .num 0
  | .num _, .negInf => .num 0
  | _, _ => .nan

/-- JavaScript array indexing with a possibly negative index; out of range
gives undefined. -/
def jsElem (vals : List JSNum) (idx : Int) : JSNum :=
  if 0 ≤ idx then vals.getD idx.toNat .undefined else .undefined

/-- ASCII whitespace bytes, the characters trimmed and split on by the
source's trim() and split() regular expression. -/
def isWsByte (c : Nat) : Bool := c = 9 || c = 10 || c = 11 || c = 12 || c = 13 || c = 32

/-- Model of String.prototype.trim on ASCII text. -/
def trimBytes (s : List Nat) : List Nat :=
  ((s.dropWhile isWsByte).reverse.dropWhile isWsByte).reverse

/-- Model of String.prototype.split with a single-character separator:
split "a\nb" gives ["a","b"], split "" gives [""]. -/
def splitOnByte (sep : Nat) : List Nat → List (List Nat)
  | [] => [[]]
  | c :: rest =>
    match splitOnByte sep rest with
    | [] => [[]]
    | l :: ls => if c = sep then [] :: l :: ls else (c :: l) :: ls

/-- Model of String.prototype.split on the whitespace-run regular expression:
maximal whitespace runs are separators, and a leading or trailing run
produces an empty piece, exactly as in JavaScript. -/
def splitWs : List Nat → List (List Nat)
  | [] => [[]]
  | c :: rest =>
    if isWsByte c then
      match rest with
      | [] => [[], []]
      | d :: _ =>
        if isWsByte d then splitWs rest else [] :: splitWs rest
    else
      match splitWs rest with
      | [] => [[]]
      | l :: ls => (c :: l) :: ls

def isDigit (c : Nat) : Bool := 48 ≤ c && c ≤ 57

def digitsVal (l : List Nat) : Nat := l.foldl (fun a c => a * 10 + (c - 48)) 0

def isHexDigit (c : Nat) : Bool := isDigit c || (97 ≤ c && c ≤ 102) || (65 ≤ c && c ≤ 70)

def hexDigitVal (c : Nat) : Nat :=
  if isDigit c then c - 48 else if 97 ≤ c then c - 87 else c - 55

def hexVal (l : List Nat) : Nat := l.foldl (fun a c => a * 16 + hexDigitVal c) 0

def isOctDigit (c : Nat) : Bool := 48 ≤ c && c ≤ 55

def octVal (l : List Nat) : Nat := l.foldl (fun a c => a * 8 + (c - 48)) 0

def isBinDigit (c : Nat) : Bool := c = 48 || c = 49

def binVal (l : List Nat) : Nat := l.foldl (fun a c => a * 2 + (c - 48)) 0

/-- Optional exponent part of a JavaScript decimal numeric literal, applied to
an already-parsed mantissa m with a fractional scale (number of digits after
the point); the whole remainder must be consumed. -/
def decSuffix (m : Nat) (scale : Nat) : List Nat → Option ℚ
  | [] => some (qscale m 10 (-(scale : ℤ)))
  | c :: r =>
    if c = 101 ∨ c = 69 then
      let p : Int × List Nat :=
        match r with
        | 43 :: t => (1, t)
        | 45 :: t => (-1, t)
        | _ => (1, r)
      let d := p.2.takeWhile isDigit
      let rest := p.2.dropWhile isDigit
      if d.isEmpty || !rest.isEmpty then none
      else some (qscale m 10 (p.1 * (digitsVal d : ℤ) - (scale : ℤ)))
    else none

/-- Unsigned decimal body of a JavaScript numeric literal: digits, an optional
point with more digits, and an optional exponent. -/
def decBody (u : List Nat) : Option ℚ :=
  let d1 := u.takeWhile isDigit
  let r1 := u.dropWhile isDigit
  match r1 with
  | 46 :: r2 =>
    let d2 := r2.takeWhile isDigit
    let r3 := r2.dropWhile isDigit
    if d1.isEmpty && d2.isEmpty then none
    else decSuffix (digitsVal (d1 ++ d2)) d2.length r3
  | _ => if d1.isEmpty then none else decSuffix (digitsVal d1) 0 r1

/-- Hexadecimal, octal and binary literals of a JavaScript string-to-number
conversion (0x, 0o, 0b prefixes, no sign allowed). -/
def radixBody (u : List Nat) : Option ℚ :=
  match u with
  | 48 :: c :: r =>
    if c = 120 ∨ c = 88 then
      (if !r.isEmpty && r.all isHexDigit then some ((hexVal r : ℚ)) else none)
    else if c = 111 ∨ c = 79 then
      (if !r.isEmpty && r.all isOctDigit then some ((octVal r : ℚ)) else none)
    else if c = 98 ∨ c = 66 then
      (if !r.isEmpty && r.all isBinDigit then some ((binVal r : ℚ)) else none)
    else none
  | _ => none

/-- Model of the JavaScript Number() conversion applied to a token string:
whitespace is trimmed, the empty string is 0, then a (signed) decimal
literal, a radix literal, or Infinity; anything else is NaN. -/
def numberJS (s : List Nat) : JSNum :=
  let t := trimBytes s
  if t.isEmpty then .num 0
  else
    match radixBody t with
    | some q => .num q
    | none =>
      let sgn : Bool × List Nat :=
        match t with
        | 43 :: r => (false, r)
        | 45 :: r => (true, r)
        | _ => (false, t)
      if sgn.2 = str (r"Infinity") then (if sgn.1 then .negInf else .inf)
      else
        match decBody sgn.2 with
        | some q => .num (if sgn.1 then Rat.neg q else q)
        | none => .nan

/-- Model of the JavaScript parseInt() conversion (radix 10, with the
automatic 0x hexadecimal prefix): leading whitespace is skipped, an optional
sign is read, then the longest digit prefix; none stands for NaN. -/
def parseIntJS (s : List Nat) : Option Int :=
  let t := s.dropWhile isWsByte
  let p : Int × List Nat :=
    match t with
    | 43 :: r => (1, r)
    | 45 :: r => (-1, r)
    | _ => (1, t)
  match p.2 with
  | 48 :: c :: r =>
    if c = 120 ∨ c = 88 then
      let d := r.takeWhile isHexDigit
      if d.isEmpty then none else some (p.1 * (hexVal d : Int))
    else
      let d := p.2.takeWhile isDigit
      if d.isEmpty then none else some (p.1 * (digitsVal d : Int))
  | _ =>
    let d := p.2.takeWhile isDigit
    if d.isEmpty then none else some (p.1 * (digitsVal d : Int))

/-- The three PLY format tokens of the source's PLYFormat union type. -/
inductive PLYFormat where
  | ascii
  | binary_little_endian
  | binary_big_endian
deriving DecidableEq, Repr

/-- One vertex property declaration, as pushed by the header loop: the type
token and the name token of the line.  The name is an Option because the
source reads parts[1], which is undefined when the declaration has a single
token after the keyword. -/
structure PLYProp where
  type : List Nat
  name : Option (List Nat)
deriving DecidableEq, Repr

/-- The parsed header record of the source's PLYHeader interface.  Vertex and
face counts come from parseInt and are therefore an Option Int, none standing
for NaN; they are initialised to 0 when the element lines are absent. -/
structure PLYHeader where
  format : PLYFormat
  vertexCount : Option Int
  faceCount : Option Int
  headerLength : Nat
  properties : List PLYProp
deriving DecidableEq, Repr

/-- The byte values of the end_header marker. -/
def endHeaderMarker : List Nat := str (r"end_header")

/-- Whether the ten bytes of the marker end exactly at index i of the buffer,
which is when the source's growing headerText first contains it. -/
def markerEndsAt (b : Bytes) (i : Nat) : Bool :=
  decide (9 ≤ i) &&
    (List.range 10).all (fun j => b.get (i - 9 + j) == endHeaderMarker.getD j 0)

/-- The byte-scan bound of the header loop: min(buffer length, 10000). -/
def scanLimit (b : Bytes) : Nat := min b.len 10000

/-- Ascending scan for the first index at which the marker is completed: fuel
is the number of indices left to try, i the current index. -/
def scanForMarker (b : Bytes) : Nat → Nat → Option Nat
  | 0, _ => none
  | fuel + 1, i => if markerEndsAt b i then some i else scanForMarker b fuel (i + 1)

/-- Index at which the end_header marker is first completed within the scan
window, if any; this is the loop index at which the source breaks. -/
def findMarkerEnd (b : Bytes) : Option Nat := scanForMarker b (scanLimit b) 0

/-- The while loop advancing headerLength past line-feed and carriage-return
bytes after the marker; the fuel argument encodes the bound check against the
buffer length. -/
def skipNewlines (b : Bytes) : Nat → Nat → Nat
  | 0, pos => pos
  | fuel + 1, pos =>
    if b.get pos = 10 ∨ b.get pos = 13 then skipNewlines b fuel (pos + 1) else pos

/-- Mutable state of the header line loop. -/
structure HeaderState where
  format : Option PLYFormat
  vertexCount : Option Int
  faceCount : Option Int
  properties : List PLYProp
  inVertexElement : Bool
deriving DecidableEq, Repr

def initHeaderState : HeaderState :=
  { format := none, vertexCount := some 0, faceCount := some 0,
    properties := [], inVertexElement := false }

/-- Lower-casing of ASCII letters (the toLowerCase applied to the format
token). -/
def lowerBytes (s : List Nat) : List Nat :=
  s.map (fun c => if 65 ≤ c ∧ c ≤ 90 then c + 32 else c)

/-- One iteration of the source's header line loop: the prefix dispatch on
format / element vertex / element face / property lines.  An unknown format
token throws. -/
def processHeaderLine (st : HeaderState) (line : List Nat) :
    Except (List Nat) HeaderState :=
  if (str (r"format ")).isPrefixOf line then
    if lowerBytes ((splitOnByte 32 (line.drop 7)).headD []) = str (r"ascii") then
      .ok { st with format := some .ascii }
    else if lowerBytes ((splitOnByte 32 (line.drop 7)).headD []) =
        str (r"binary_little_endian") then
      .ok { st with format := some .binary_little_endian }
    else if lowerBytes ((splitOnByte 32 (line.drop 7)).headD []) =
        str (r"binary_big_endian") then
      .ok { st with format := some .binary_big_endian }
    else
      .error (str (r"Unknown PLY format: ")
        ++ lowerBytes ((splitOnByte 32 (line.drop 7)).headD []))
  else if (str (r"element vertex ")).isPrefixOf line then
    .ok { st with vertexCount := parseIntJS (line.drop 15), inVertexElement := true }
  else if (str (r"element face ")).isPrefixOf line then
    .ok { st with faceCount := parseIntJS (line.drop 13), inVertexElement := false }
  else if (str (r"property ")).isPrefixOf line && st.inVertexElement then
    let parts := splitOnByte 32 (line.drop 9)
    .ok { st with properties := st.properties ++ [⟨parts.headD [], parts.get? 1⟩] }
  else
    .ok st

/-- The header text accumulated by the scan: one character per byte up to and
including the byte at which the marker was completed. -/
def headerTextOf (b : Bytes) (i : Nat) : List Nat := (List.range (i + 1)).map b.get

/-- Embedding of parsePLYHeader: scan for end_header within the first 10000
bytes, record headerLength just past the marker and any following newline
bytes, then interpret the accumulated text line by line. -/
def parsePLYHeader (b : Bytes) : Except (List Nat) PLYHeader :=
  match findMarkerEnd b with
  | none => .error (str (r"Invalid PLY file: end_header not found"))
  | some i =>
    let headerLength := skipNewlines b (b.len - (i + 1)) (i + 1)
    let lines := (splitOnByte 10 (headerTextOf b i)).map trimBytes
    match lines.foldlM processHeaderLine initHeaderState with
    | .error e => .error e
    | .ok st =>
      match st.format with
      | none => .error (str (r"PLY format not specified in header"))
      | some f => .ok ⟨f, st.vertexCount, st.faceCount, headerLength, st.properties⟩

/-- Parser output: the three flat arrays the source accumulates and hands to
THREE.BufferGeometry (positions and colors as pushed, indices as pushed).
Attribute objects, bounding volumes and GPU buffers are not modelled; the
claims are about these arrays. -/
structure Geometry where
  positions : List JSNum
  colors : List JSNum
  indices : List JSNum
deriving DecidableEq, Repr

/-- Embedding of createGeometry: bundles the three arrays (attribute
attachment and bounding-volume computation have no bearing on the arrays). -/
def createGeometry (positions colors indices : List JSNum) : Geometry :=
  ⟨positions, colors, indices⟩

/-- The bytes of the buffer from a start offset to its end, as a character
list (the source's uint8Array.slice(headerLength) passed through a utf-8
TextDecoder; PLY text bodies are ASCII, where the decoding is the identity
on byte values). -/
def bytesToList (b : Bytes) (start : Nat) : List Nat :=
  (List.range (b.len - start)).map (fun j => b.get (start + j))

/-- The line list of the ASCII body: split on line feeds, keeping only lines
that are nonempty after trimming (the lines themselves stay untrimmed, as in
the source). -/
def asciiLines (b : Bytes) (start : Nat) : List (List Nat) :=
  (splitOnByte 10 (bytesToList b start)).filter (fun l => !(trimBytes l).isEmpty)

/-- The numeric token row of one line: trim, split on whitespace runs, convert
each token with Number(). -/
def rowValues (lines : List (List Nat)) (i : Nat) : List JSNum :=
  (splitWs (trimBytes (lines.getD i []))).map numberJS

/-- properties.some(p => p.name === nm). -/
def hasProp (props : List PLYProp) (nm : List Nat) : Bool :=
  props.any (fun p => p.name == some nm)

def findIndexAux (p : PLYProp → Bool) : List PLYProp → Nat → Int
  | [], _ => -1
  | x :: xs, k => if p x then (k : Int) else findIndexAux p xs (k + 1)

/-- properties.findIndex(p => p.name === nm), with -1 for absence as in
JavaScript. -/
def findIndexJS (props : List PLYProp) (nm : List Nat) : Int :=
  findIndexAux (fun p => p.name == some nm) props 0

/-- Iteration count of the vertex loop (i < vertexCount && i < limit, where
a NaN or negative count yields no iterations). -/
def iterCount (vc : Option Int) (limit : Nat) : Nat :=
  match vc with
  | none => 0
  | some v => min v.toNat limit

/-- One iteration of the ASCII vertex loop on an already tokenised row: the
positions pushed (three values at the declared x, y, z columns when the row
has at least three tokens) and the colors pushed (the declared red, green,
blue columns divided by 255, when all three are declared and the row covers
the highest of their indices). -/
def asciiVertexStep (xI yI zI rI gI bI : Int) (vals : List JSNum) :
    List JSNum × List JSNum :=
  if 3 ≤ vals.length then
    ([jsElem vals xI, jsElem vals yI, jsElem vals zI],
     if 0 ≤ rI ∧ 0 ≤ gI ∧ 0 ≤ bI ∧ max rI (max gI bI) < (vals.length : Int) then
       [(jsElem vals rI).div (.num 255), (jsElem vals gI).div (.num 255),
        (jsElem vals bI).div (.num 255)]
     else [])
  else ([], [])

/-- The ASCII vertex loop: fuel counts the remaining iterations, i is the
current line index. -/
def asciiVertexLoop (lines : List (List Nat)) (xI yI zI rI gI bI : Int) :
    Nat → Nat → List JSNum × List JSNum
  | 0, _ => ([], [])
  | n + 1, i =>
    let s := asciiVertexStep xI yI zI rI gI bI (rowValues lines i)
    let rest := asciiVertexLoop lines xI yI zI rI gI bI n (i + 1)
    (s.1 ++ rest.1, s.2 ++ rest.2)

/-- The indices contributed by one tokenised face row: the leading token is
the vertex-reference count; 3 gives one triangle, 4 gives the two fan
triangles, anything else contributes nothing. -/
def faceIndices (vals : List JSNum) : List JSNum :=
  if jsElem vals 0 = .num 3 ∧ 4 ≤ vals.length then
    [jsElem vals 1, jsElem vals 2, jsElem vals 3]
  else if jsElem vals 0 = .num 4 ∧ 5 ≤ vals.length then
    [jsElem vals 1, jsElem vals 2, jsElem vals 3,
     jsElem vals 1, jsElem vals 3, jsElem vals 4]
  else []

/-- The ASCII face loop: the face start line is the raw vertexCount number
(faceStartLine + i), so a NaN count ends the loop at once and a negative
count makes the line lookup undefined, on which the source's trim() call
throws a TypeError. -/
def asciiFaceLoop (lines : List (List Nat)) (vcRaw : Option Int) :
    Nat → Nat → Except (List Nat) (List JSNum)
  | 0, _ => .ok []
  | fuel + 1, i =>
    match vcRaw with
    | none => .ok []
    | some v =>
      if v + i < (lines.length : Int) then
        if v + i < 0 then
          .error (str (r"TypeError: Cannot read properties of undefined"))
        else
          match asciiFaceLoop lines vcRaw fuel (i + 1) with
          | .error e => .error e
          | .ok rest => .ok (faceIndices (rowValues lines (v + i).toNat) ++ rest)
      else .ok []

/-- header.faceCount > 0, on the raw parseInt result. -/
def jsPosCount (fc : Option Int) : Bool :=
  match fc with
  | none => false
  | some v => decide (0 < v)

/-- Embedding of parsePLYAscii: decode the body text after headerLength into
nonempty lines, require the x, y, z properties, decode up to vertexCount
vertex rows by declared column indices, then up to faceCount face rows. -/
def parsePLYAscii (b : Bytes) (header : PLYHeader) : Except (List Nat) Geometry :=
  let lines := asciiLines b header.headerLength
  if hasProp header.properties (str (r"x")) && hasProp header.properties (str (r"y"))
      && hasProp header.properties (str (r"z")) then
    let xI := findIndexJS header.properties (str (r"x"))
    let yI := findIndexJS header.properties (str (r"y"))
    let zI := findIndexJS header.properties (str (r"z"))
    let rI := findIndexJS header.properties (str (r"red"))
    let gI := findIndexJS header.properties (str (r"green"))
    let bI := findIndexJS header.properties (str (r"blue"))
    let pc := asciiVertexLoop lines xI yI zI rI gI bI
      (iterCount header.vertexCount lines.length) 0
    match (if jsPosCount header.faceCount then
             asciiFaceLoop lines header.vertexCount
               (match header.faceCount with | none => 0 | some v => v.toNat) 0
           else .ok []) with
    | .error e => .error e
    | .ok indices => .ok (createGeometry pc.1 pc.2 indices)
  else .error (str (r"PLY file missing x, y, or z coordinates"))

/-- Byte width of a property type token, the switch of the stride loop;
unrecognized tokens default to 4 bytes. -/
def typeWidth (t : List Nat) : Nat :=
  if t = str (r"float") ∨ t = str (r"float32") then 4
  else if t = str (r"double") ∨ t = str (r"float64") then 8
  else if t = str (r"uchar") ∨ t = str (r"uint8") then 1
  else if t = str (r"short") ∨ t = str (r"int16") then 2
  else if t = str (r"ushort") ∨ t = str (r"uint16") then 2
  else if t = str (r"int") ∨ t = str (r"int32") then 4
  else if t = str (r"uint") ∨ t = str (r"uint32") then 4
  else 4

/-- The single loop of the source that records each property's byte offset at
the running stride and then adds the property's width: returns the offset
association list (in declaration order) and the final stride. -/
def buildOffsets : List PLYProp → Nat → (List (Option (List Nat) × Nat) × Nat)
  | [], s => ([], s)
  | p :: rest, s =>
    let r := buildOffsets rest (s + typeWidth p.type)
    ((p.name, s) :: r.1, r.2)

def propertyOffsets (props : List PLYProp) : List (Option (List Nat) × Nat) :=
  (buildOffsets props 0).1

def strideOf (props : List PLYProp) : Nat := (buildOffsets props 0).2

/-- Lookup in the offsets object; a later assignment to the same key wins, as
in a JavaScript object, hence the search over the reversed list. -/
def lookupOffset (offs : List (Option (List Nat) × Nat)) (nm : List Nat) : Option Nat :=
  match offs.reverse.find? (fun e => e.1 == some nm) with
  | some e => some e.2
  | none => none

/-- Little-endian value of n bytes starting at addr. -/
def bytesNatLE (b : Bytes) : Nat → Nat → Nat
  | _, 0 => 0
  | addr, n + 1 => b.get addr + 256 * bytesNatLE b (addr + 1) n

/-- Big-endian value of n bytes starting at addr. -/
def bytesNatBE (b : Bytes) : Nat → Nat → Nat
  | _, 0 => 0
  | addr, n + 1 => b.get addr * 256 ^ n + bytesNatBE b (addr + 1) n

def readUIntBytes (b : Bytes) (addr n : Nat) (le : Bool) : Nat :=
  if le then bytesNatLE b addr n else bytesNatBE b addr n

/-- Value of an IEEE 754 binary32 bit pattern as a JavaScript number:
infinities and NaN for the maximal exponent, subnormals for exponent 0, and
the exact rational value otherwise (negative zero is identified with zero,
and float-to-double widening is exact). -/
def decodeF32 (bits : Nat) : JSNum :=
  let s : Nat := bits / 2 ^ 31 % 2
  let e : Nat := bits / 2 ^ 23 % 2 ^ 8
  let f : Nat := bits % 2 ^ 23
  if e = 255 then (if f = 0 then (if s = 1 then .negInf else .inf) else .nan)
  else
    let mag : ℚ :=
      if e = 0 then qscale (Int.ofNat f) 2 (-149)
      else qscale (Int.ofNat (2 ^ 23 + f)) 2 ((e : Int) - 150)
    .num (if s = 1 then Rat.neg mag else mag)

/-- Value of an IEEE 754 binary64 bit pattern as a JavaScript number. -/
def decodeF64 (bits : Nat) : JSNum :=
  let s : Nat := bits / 2 ^ 63 % 2
  let e : Nat := bits / 2 ^ 52 % 2 ^ 11
  let f : Nat := bits % 2 ^ 52
  if e = 2047 then (if f = 0 then (if s = 1 then .negInf else .inf) else .nan)
  else
    let mag : ℚ :=
      if e = 0 then qscale (Int.ofNat f) 2 (-1074)
      else qscale (Int.ofNat (2 ^ 52 + f)) 2 ((e : Int) - 1075)
    .num (if s = 1 then Rat.neg mag else mag)

def getFloat32 (b : Bytes) (addr : Nat) (le : Bool) : JSNum :=
  decodeF32 (readUIntBytes b addr 4 le)

def getFloat64 (b : Bytes) (addr : Nat) (le : Bool) : JSNum :=
  decodeF64 (readUIntBytes b addr 8 le)

def getUint8JS (b : Bytes) (addr : Nat) : JSNum := .num (b.get addr)

def getUint16JS (b : Bytes) (addr : Nat) (le : Bool) : JSNum :=
  .num (readUIntBytes b addr 2 le)

def getInt16JS (b : Bytes) (addr : Nat) (le : Bool) : JSNum :=
  let u := readUIntBytes b addr 2 le
  .num (((if u < 2 ^ 15 then (u : Int) else (u : Int) - 2 ^ 16) : Int) : ℚ)

def getUint32JS (b : Bytes) (addr : Nat) (le : Bool) : JSNum :=
  .num (readUIntBytes b addr 4 le)

def getInt32JS (b : Bytes) (addr : Nat) (le : Bool) : JSNum :=
  let u := readUIntBytes b addr 4 le
  .num (((if u < 2 ^ 31 then (u : Int) else (u : Int) - 2 ^ 32) : Int) : ℚ)

/-- Embedding of readProperty: look the name up in the offsets object and the
property list, then read the typed value at the record offset; a missing
name, an unrecognized type, or a read past the record's DataView (the caught
RangeError) all give 0.  vo is the record's absolute byte offset and stride
the DataView's length. -/
def readProperty (b : Bytes) (vo stride : Nat) (nm : List Nat)
    (offs : List (Option (List Nat) × Nat)) (props : List PLYProp) (le : Bool) : JSNum :=
  match lookupOffset offs nm with
  | none => .num 0
  | some off =>
    match props.find? (fun p => p.name == some nm) with
    | none => .num 0
    | some prop =>
      let t := prop.type
      if t = str (r"float") ∨ t = str (r"float32") then
        (if stride < off + 4 then .num 0 else getFloat32 b (vo + off) le)
      else if t = str (r"double") ∨ t = str (r"float64") then
        (if stride < off + 8 then .num 0 else getFloat64 b (vo + off) le)
      else if t = str (r"uchar") ∨ t = str (r"uint8") then
        (if stride < off + 1 then .num 0 else getUint8JS b (vo + off))
      else if t = str (r"short") ∨ t = str (r"int16") then
        (if stride < off + 2 then .num 0 else getInt16JS b (vo + off) le)
      else if t = str (r"ushort") ∨ t = str (r"uint16") then
        (if stride < off + 2 then .num 0 else getUint16JS b (vo + off) le)
      else if t = str (r"int") ∨ t = str (r"int32") then
        (if stride < off + 4 then .num 0 else getInt32JS b (vo + off) le)
      else if t = str (r"uint") ∨ t = str (r"uint32") then
        (if stride < off + 4 then .num 0 else getUint32JS b (vo + off) le)
      else .num 0

/-- Iteration count of the binary vertex loop:
min(vertexCount, floor((byteLength - offset) / stride)), where a NaN or
negative count yields no iterations; a zero stride makes the quotient
infinite, leaving the declared count (the loop's own break then guards the
reads). -/
def binIterCount (vc : Option Int) (len off stride : Nat) : Nat :=
  match vc with
  | none => 0
  | some v => if stride = 0 then v.toNat else min v.toNat ((len - off) / stride)

/-- One record of the binary vertex loop at absolute offset vo: the x, y, z
reads, and the color triple divided by 255 when a red offset exists. -/
def binVertexStep (b : Bytes) (stride : Nat) (offs : List (Option (List Nat) × Nat))
    (props : List PLYProp) (le : Bool) (vo : Nat) : List JSNum × List JSNum :=
  ([readProperty b vo stride (str (r"x")) offs props le,
    readProperty b vo stride (str (r"y")) offs props le,
    readProperty b vo stride (str (r"z")) offs props le],
   if (lookupOffset offs (str (r"red"))).isSome then
     [(readProperty b vo stride (str (r"red")) offs props le).div (.num 255),
      (readProperty b vo stride (str (r"green")) offs props le).div (.num 255),
      (readProperty b vo stride (str (r"blue")) offs props le).div (.num 255)]
   else [])

/-- The binary vertex loop: fuel is the remaining iteration count, i the
vertex index; the loop breaks when a record would extend past the buffer. -/
def binVertexLoop (b : Bytes) (off stride : Nat) (offs : List (Option (List Nat) × Nat))
    (props : List PLYProp) (le : Bool) : Nat → Nat → List JSNum × List JSNum
  | 0, _ => ([], [])
  | n + 1, i =>
    if b.len < off + i * stride + stride then ([], [])
    else
      let s := binVertexStep b stride offs props le (off + i * stride)
      let rest := binVertexLoop b off stride offs props le n (i + 1)
      (s.1 ++ rest.1, s.2 ++ rest.2)

/-- Embedding of parsePLYBinary: require the x, y, z properties, build the
offset table and stride, clamp the vertex count to what the buffer holds,
and decode records; binary faces are not decoded, so indices stay empty. -/
def parsePLYBinary (b : Bytes) (header : PLYHeader) (le : Bool) :
    Except (List Nat) Geometry :=
  if hasProp header.properties (str (r"x")) && hasProp header.properties (str (r"y"))
      && hasProp header.properties (str (r"z")) then
    let off := header.headerLength
    let stride := strideOf header.properties
    let offs := propertyOffsets header.properties
    let pc := binVertexLoop b off stride offs header.properties le
      (binIterCount header.vertexCount b.len off stride) 0
    .ok (createGeometry pc.1 pc.2 [])
  else .error (str (r"PLY file missing x, y, or z coordinates"))

/-- The expanded buffer of parsePLYWithExpandedBuffer: the original bytes
followed by 1 MiB of zero padding (a fresh ArrayBuffer is zero-filled). -/
def padBuffer (b : Bytes) : Bytes :=
  ⟨b.len + 1024 * 1024, fun i => if i < b.len then b.byteAt i else 0⟩

/-- Embedding of parsePLYWithExpandedBuffer: copy the input into a 1 MiB
larger zero-padded buffer, parse the header there, and dispatch on the
declared format. -/
def parsePLYWithExpandedBuffer (b : Bytes) : Except (List Nat) Geometry :=
  match parsePLYHeader (padBuffer b) with
  | .error e => .error e
  | .ok header =>
    match header.format with
    | .ascii => parsePLYAscii (padBuffer b) header
    | .binary_little_endian => parsePLYBinary (padBuffer b) header true
    | .binary_big_endian => parsePLYBinary (padBuffer b) header false

/-- Geometry decoded from the padded c1 buffer: the second vertex record is
read from the zero padding. -/
def c1geom : Geometry :=
  ⟨[.num 1, .num 1, .num 1, .num 0, .num 0, .num 0], [], []⟩

/-- Geometry decoded from the c2 buffer. -/
def c2geom : Geometry :=
  ⟨[.num 3, .num 1, .num 2, .num 6, .num 4, .num 5], [], []⟩

/-- Geometry decoded from the c4 buffer: six positions but a single color
triple, whose red channel is 300/255. -/
def c4geom : Geometry :=
  ⟨[.num 1, .num 2, .num 3, .num 4, .num 5, .num 6],
   [.num (Rat.divInt 20 17), .num 0, .num 0], []⟩

/-- Geometry decoded from the c6 buffer: one vertex and the two fan
triangles of the quad face line. -/
def c6geom : Geometry :=
  ⟨[.num 0, .num 0, .num 0], [],
   [.num 0, .num 1, .num 2, .num 0, .num 2, .num 3]⟩

/-- Geometry decoded from the c8 buffer. -/
def c8geom : Geometry :=
  ⟨[.num 1, .num 2, .num 3, .num (-1), .num 0, .num (Rat.divInt 3 2)],
   [.num 1, .num 0, .num (Rat.divInt 128 255),
    .num (Rat.divInt 1 255), .num (Rat.divInt 2 255), .num (Rat.divInt 1 85)], []⟩

/-- Geometry decoded from the c10 buffer: a red-only color triple with the
missing channels read as 0. -/
def c10geom : Geometry :=
  ⟨[.num 1, .num 2, .num 3], [.num (Rat.divInt 40 51), .num 0, .num 0], []⟩

/-- Input-level statement that the literal end_header marker is completed
somewhere within the scan window of the first 10000 bytes. -/
def endHeaderCompletedWithin (b : Bytes) : Prop :=
  ∃ i, i < min b.len 10000 ∧ 9 ≤ i ∧
    ∀ j, j < 10 → b.get (i - 9 + j) = endHeaderMarker.getD j 0

/-- Truncated binary little-endian file: the header declares 2 vertices of
stride 12 but the body holds a single 12-byte record (one float 1.0 per
coordinate). -/
def c1bytes : List Nat :=
  str ("ply\nformat binary_little_endian 1.0\nelement vertex 2\nproperty float x\nproperty float y\nproperty float z\nend_header\n")
    ++ [0, 0, 128, 63, 0, 0, 128, 63, 0, 0, 128, 63]

def c1buf : Bytes := Bytes.ofList c1bytes

/-- The header parsed from the padded c1 buffer. -/
def c1hdr : PLYHeader :=
  ⟨.binary_little_endian, some 2, some 0, 115,
   [⟨str (r"float"), some (str (r"x"))⟩,
    ⟨str (r"float"), some (str (r"y"))⟩,
    ⟨str (r"float"), some (str (r"z"))⟩]⟩

/-- ASCII file whose vertex properties are declared in the order y, z, x. -/
def c2buf : Bytes := Bytes.ofList (str
  ("ply\nformat ascii 1.0\nelement vertex 2\nproperty float y\nproperty float z\nproperty float x\nend_header\n1 2 3\n4 5 6\n"))

def c2hdr : PLYHeader :=
  ⟨.ascii, some 2, some 0, 100,
   [⟨str (r"float"), some (str (r"y"))⟩,
    ⟨str (r"float"), some (str (r"z"))⟩,
    ⟨str (r"float"), some (str (r"x"))⟩]⟩

/-- ASCII file whose vertex element declares only x and y. -/
def c3buf : Bytes := Bytes.ofList (str
  ("ply\nformat ascii 1.0\nelement vertex 1\nproperty float x\nproperty float y\nend_header\n1 2\n"))

def c3hdr : PLYHeader :=
  ⟨.ascii, some 1, some 0, 83,
   [⟨str (r"float"), some (str (r"x"))⟩,
    ⟨str (r"float"), some (str (r"y"))⟩]⟩

/-- ASCII file with full color properties whose second vertex row has only
three tokens, and whose first red value is 300. -/
def c4buf : Bytes := Bytes.ofList (str
  ("ply\nformat ascii 1.0\nelement vertex 2\nproperty float x\nproperty float y\nproperty float z\nproperty uchar red\nproperty uchar green\nproperty uchar blue\nend_header\n1 2 3 300 0 0\n4 5 6\n"))

def c4hdr : PLYHeader :=
  ⟨.ascii, some 2, some 0, 160,
   [⟨str (r"float"), some (str (r"x"))⟩,
    ⟨str (r"float"), some (str (r"y"))⟩,
    ⟨str (r"float"), some (str (r"z"))⟩,
    ⟨str (r"uchar"), some (str (r"red"))⟩,
    ⟨str (r"uchar"), some (str (r"green"))⟩,
    ⟨str (r"uchar"), some (str (r"blue"))⟩]⟩

/-- Buffer with no end_header marker anywhere. -/
def c5buf : Bytes := Bytes.ofList (str (r"ply format ascii"))

/-- ASCII file with one vertex and one quad face line 4 0 1 2 3. -/
def c6buf : Bytes := Bytes.ofList (str
  ("ply\nformat ascii 1.0\nelement vertex 1\nproperty float x\nproperty float y\nproperty float z\nelement face 1\nend_header\n0 0 0\n4 0 1 2 3\n"))

def c6hdr : PLYHeader :=
  ⟨.ascii, some 1, some 1, 115,
   [⟨str (r"float"), some (str (r"x"))⟩,
    ⟨str (r"float"), some (str (r"y"))⟩,
    ⟨str (r"float"), some (str (r"z"))⟩]⟩

/-- Header ending in a carriage return and line feed after the marker. -/
def c7buf : Bytes := Bytes.ofList (str
  ("ply\nformat ascii 1.0\nelement vertex 0\nend_header\r\n"))

def c7hdr : PLYHeader := ⟨.ascii, some 0, some 0, 50, []⟩

/-- The property list of the binary stride claim: x, y, z as float32 and
red, green, blue as uint8. -/
def c8props : List PLYProp :=
  [⟨str (r"float32"), some (str (r"x"))⟩,
   ⟨str (r"float32"), some (str (r"y"))⟩,
   ⟨str (r"float32"), some (str (r"z"))⟩,
   ⟨str (r"uint8"), some (str (r"red"))⟩,
   ⟨str (r"uint8"), some (str (r"green"))⟩,
   ⟨str (r"uint8"), some (str (r"blue"))⟩]

/-- Binary little-endian file with the c8 property layout and two records:
(1.0, 2.0, 3.0, 255, 0, 128) and (-1.0, 0.0, 1.5, 1, 2, 3). -/
def c8buf : Bytes := Bytes.ofList (str
  ("ply\nformat binary_little_endian 1.0\nelement vertex 2\nproperty float32 x\nproperty float32 y\nproperty float32 z\nproperty uint8 red\nproperty uint8 green\nproperty uint8 blue\nend_header\n")
  ++ [0, 0, 128, 63, 0, 0, 0, 64, 0, 0, 64, 64, 255, 0, 128,
      0, 0, 128, 191, 0, 0, 0, 0, 0, 0, 192, 63, 1, 2, 3])

def c8hdr : PLYHeader := ⟨.binary_little_endian, some 2, some 0, 181, c8props⟩

/-- Empty buffer for the determinism witness. -/
def c9buf : Bytes := Bytes.ofList []

/-- Binary little-endian file declaring red but neither green nor blue. -/
def c10buf : Bytes := Bytes.ofList (str
  ("ply\nformat binary_little_endian 1.0\nelement vertex 1\nproperty float x\nproperty float y\nproperty float z\nproperty uchar red\nend_header\n")
  ++ [0, 0, 128, 63, 0, 0, 0, 64, 0, 0, 64, 64, 200])

def c10hdr : PLYHeader :=
  ⟨.binary_little_endian, some 1, some 0, 134,
   [⟨str (r"float"), some (str (r"x"))⟩,
    ⟨str (r"float"), some (str (r"y"))⟩,
    ⟨str (r"float"), some (str (r"z"))⟩,
    ⟨str (r"uchar"), some (str (r"red"))⟩]⟩

/-! ### Lemmas about the header scan -/

theorem markerEndsAt_iff (b : Bytes) (i : Nat) :
    markerEndsAt b i = true ↔
      (9 ≤ i ∧ ∀ j, j < 10 → b.get (i - 9 + j) = endHeaderMarker.getD j 0) := by
  simp [markerEndsAt, List.all_eq_true, List.mem_range]

theorem scanForMarker_none (b : Bytes) :
    ∀ fuel i, scanForMarker b fuel i = none ↔
      (∀ m, m < fuel → markerEndsAt b (i + m) = false) := by
  intro fuel
  induction fuel with
  | zero =>
    intro i
    constructor
    · intro _ m hm; omega
    · intro _; rfl
  | succ fuel ih =>
    intro i
    constructor
    · intro h m hm
      by_cases hc : markerEndsAt b i
      · simp [scanForMarker, hc] at h
      · rcases Nat.eq_zero_or_pos m with h0 | hpos
        · subst h0
          rw [Nat.add_zero]
          exact (Bool.not_eq_true _).mp hc
        · simp only [scanForMarker, hc, Bool.false_eq_true, if_false] at h
          have := (ih (i + 1)).mp h (m - 1) (by omega)
          rw [show i + 1 + (m - 1) = i + m from by omega] at this
          exact this
    · intro hall
      have hc : markerEndsAt b i = false := by
        have := hall 0 (by omega)
        simpa using this
      simp only [scanForMarker, hc, Bool.false_eq_true, if_false]
      refine (ih (i + 1)).mpr (fun m hm => ?_)
      have := hall (m + 1) (by omega)
      rw [show i + 1 + m = i + (m + 1) from by omega]
      exact this

theorem scanForMarker_some (b : Bytes) :
    ∀ fuel i j, scanForMarker b fuel i = some j →
      markerEndsAt b j = true ∧ i ≤ j ∧ j < i + fuel := by
  intro fuel
  induction fuel with
  | zero => intro i j h; simp [scanForMarker] at h
  | succ fuel ih =>
    intro i j h
    by_cases hc : markerEndsAt b i
    · simp only [scanForMarker, hc, if_true] at h
      cases h
      exact ⟨hc, Nat.le_refl _, by omega⟩
    · simp only [scanForMarker, hc, Bool.false_eq_true, if_false] at h
      rcases ih (i + 1) j h with ⟨h1, h2, h3⟩
      exact ⟨h1, by omega, by omega⟩

theorem skipNewlines_ge (b : Bytes) :
    ∀ fuel pos, pos ≤ skipNewlines b fuel pos := by
  intro fuel
  induction fuel with
  | zero => intro pos; exact Nat.le_refl _
  | succ fuel ih =>
    intro pos
    by_cases hc : b.get pos = 10 ∨ b.get pos = 13
    · simp only [skipNewlines, hc, if_true]
      exact Nat.le_trans (by omega) (ih (pos + 1))
    · simp only [skipNewlines, hc, if_false]
      exact Nat.le_refl _

theorem skipNewlines_le (b : Bytes) :
    ∀ fuel pos, skipNewlines b fuel pos ≤ pos + fuel := by
  intro fuel
  induction fuel with
  | zero => intro pos; exact Nat.le_refl _
  | succ fuel ih =>
    intro pos
    by_cases hc : b.get pos = 10 ∨ b.get pos = 13
    · simp only [skipNewlines, hc, if_true]
      exact Nat.le_trans (ih (pos + 1)) (by omega)
    · simp only [skipNewlines, hc, if_false]; omega

theorem skipNewlines_between (b : Bytes) :
    ∀ fuel pos p, pos ≤ p → p < skipNewlines b fuel pos →
      (b.get p = 10 ∨ b.get p = 13) := by
  intro fuel
  induction fuel with
  | zero => intro pos p h1 h2; simp [skipNewlines] at h2; omega
  | succ fuel ih =>
    intro pos p h1 h2
    by_cases hc : b.get pos = 10 ∨ b.get pos = 13
    · simp only [skipNewlines, hc, if_true] at h2
      rcases Nat.eq_or_lt_of_le h1 with he | hlt
      · subst he; exact hc
      · exact ih (pos + 1) p (by omega) h2
    · simp only [skipNewlines, hc, if_false] at h2; omega

theorem skipNewlines_stop (b : Bytes) :
    ∀ fuel pos, skipNewlines b fuel pos = pos + fuel ∨
      ¬(b.get (skipNewlines b fuel pos) = 10 ∨ b.get (skipNewlines b fuel pos) = 13) := by
  intro fuel
  induction fuel with
  | zero => intro pos; left; rfl
  | succ fuel ih =>
    intro pos
    by_cases hc : b.get pos = 10 ∨ b.get pos = 13
    · simp only [skipNewlines, hc, if_true]
      rcases ih (pos + 1) with h | h
      · left; omega
      · right; exact h
    · have hred : skipNewlines b (fuel + 1) pos = pos := by
        simp only [skipNewlines]
        rw [if_neg hc]
      rw [hred]
      right; exact hc

theorem processHeaderLine_error (st : HeaderState) (l e : List Nat)
    (hp : processHeaderLine st l = .error e) :
    ∃ t, e = str (r"Unknown PLY format: ") ++ t := by
  unfold processHeaderLine at hp
  by_cases h1 : ((str (r"format ")).isPrefixOf l) = true
  · rw [if_pos h1] at hp
    by_cases h2 : lowerBytes ((splitOnByte 32 (l.drop 7)).headD []) = str (r"ascii")
    · rw [if_pos h2] at hp; cases hp
    · rw [if_neg h2] at hp
      by_cases h3 : lowerBytes ((splitOnByte 32 (l.drop 7)).headD []) =
          str (r"binary_little_endian")
      · rw [if_pos h3] at hp; cases hp
      · rw [if_neg h3] at hp
        by_cases h4 : lowerBytes ((splitOnByte 32 (l.drop 7)).headD []) =
            str (r"binary_big_endian")
        · rw [if_pos h4] at hp; cases hp
        · rw [if_neg h4] at hp
          exact ⟨_, (Except.error.inj hp).symm⟩
  · rw [if_neg h1] at hp
    by_cases h2 : ((str (r"element vertex ")).isPrefixOf l) = true
    · rw [if_pos h2] at hp; cases hp
    · rw [if_neg h2] at hp
      by_cases h3 : ((str (r"element face ")).isPrefixOf l) = true
      · rw [if_pos h3] at hp; cases hp
      · rw [if_neg h3] at hp
        by_cases h4 : (((str (r"property ")).isPrefixOf l) && st.inVertexElement) = true
        · rw [if_pos h4] at hp; cases hp
        · rw [if_neg h4] at hp; cases hp

theorem processHeaderLines_error_shape :
    ∀ (lines : List (List Nat)) (st : HeaderState) (e : List Nat),
      List.foldlM processHeaderLine st lines = .error e →
      ∃ t, e = str (r"Unknown PLY format: ") ++ t := by
  intro lines
  induction lines with
  | nil =>
    intro st e h
    have h2 : (Except.ok st : Except (List Nat) HeaderState) = Except.error e := h
    cases h2
  | cons l ls ih =>
    intro st e h
    rw [List.foldlM_cons] at h
    cases hp : processHeaderLine st l with
    | error e2 =>
      rw [hp] at h
      have h2 : (Except.error e2 : Except (List Nat) HeaderState) = Except.error e := h
      cases h2
      exact processHeaderLine_error st l e hp
    | ok st2 =>
      rw [hp] at h
      have h2 : List.foldlM processHeaderLine st2 ls = Except.error e := h
      exact ih st2 e h2

theorem parsePLYHeader_none (b : Bytes) (hf : findMarkerEnd b = none) :
    parsePLYHeader b = .error (str (r"Invalid PLY file: end_header not found")) := by
  unfold parsePLYHeader; rw [hf]

theorem parsePLYHeader_foldErr (b : Bytes) (i : Nat) (e : List Nat)
    (hf : findMarkerEnd b = some i)
    (hfold : List.foldlM processHeaderLine initHeaderState
      ((splitOnByte 10 (headerTextOf b i)).map trimBytes) = .error e) :
    parsePLYHeader b = .error e := by
  unfold parsePLYHeader; rw [hf]
  simp only [hfold]

theorem parsePLYHeader_foldOkNoFmt (b : Bytes) (i : Nat) (st : HeaderState)
    (hf : findMarkerEnd b = some i)
    (hfold : List.foldlM processHeaderLine initHeaderState
      ((splitOnByte 10 (headerTextOf b i)).map trimBytes) = .ok st)
    (hfmt : st.format = none) :
    parsePLYHeader b = .error (str (r"PLY format not specified in header")) := by
  unfold parsePLYHeader; rw [hf]
  simp only [hfold, hfmt]

theorem parsePLYHeader_foldOkFmt (b : Bytes) (i : Nat) (st : HeaderState) (f : PLYFormat)
    (hf : findMarkerEnd b = some i)
    (hfold : List.foldlM processHeaderLine initHeaderState
      ((splitOnByte 10 (headerTextOf b i)).map trimBytes) = .ok st)
    (hfmt : st.format = some f) :
    parsePLYHeader b = .ok ⟨f, st.vertexCount, st.faceCount,
      skipNewlines b (b.len - (i + 1)) (i + 1), st.properties⟩ := by
  unfold parsePLYHeader; rw [hf]
  simp only [hfold, hfmt]

/-- C5: parsePLYHeader throws the end_header error exactly on the buffers in
which the literal end_header marker is not completed within the first 10000
bytes; when the marker is completed within that window this error is never
raised (any failure is a different error), and an error means no header and
hence no geometry is produced. -/
theorem ply_endHeaderScanCap (b : Bytes) :
    parsePLYHeader b = .error (str (r"Invalid PLY file: end_header not found")) ↔
      ¬ endHeaderCompletedWithin b := by
  cases hf : findMarkerEnd b with
  | none =>
    rw [parsePLYHeader_none b hf]
    constructor
    · intro _
      rintro ⟨i, hi, h9, hj⟩
      have hall := (scanForMarker_none b (scanLimit b) 0).mp hf
      have hfalse : markerEndsAt b i = false := by
        have := hall i (by simpa [scanLimit] using hi)
        simpa using this
      rw [(markerEndsAt_iff b i).mpr ⟨h9, hj⟩] at hfalse
      cases hfalse
    · intro _; rfl
  | some i =>
    have hm := scanForMarker_some b (scanLimit b) 0 i hf
    have hwithin : endHeaderCompletedWithin b := by
      rcases (markerEndsAt_iff b i).mp hm.1 with ⟨h9, hj⟩
      refine ⟨i, ?_, h9, hj⟩
      have := hm.2.2
      simp only [scanLimit] at this ⊢
      omega
    cases hfold : List.foldlM processHeaderLine initHeaderState
        ((splitOnByte 10 (headerTextOf b i)).map trimBytes) with
    | error e =>
      rw [parsePLYHeader_foldErr b i e hf hfold]
      constructor
      · intro h
        exfalso
        rcases processHeaderLines_error_shape _ _ _ hfold with ⟨t, rfl⟩
        have he := Except.error.inj h
        have h85 : ((str (r"Unknown PLY format: ") ++ t).headD 0) = 85 := rfl
        have h73 : ((str (r"Invalid PLY file: end_header not found")).headD 0) = 73 := rfl
        rw [he] at h85
        rw [h73] at h85
        cases h85
      · intro hn; exact absurd hwithin hn
    | ok st =>
      cases hfmt : st.format with
      | none =>
        rw [parsePLYHeader_foldOkNoFmt b i st hf hfold hfmt]
        constructor
        · intro h
          exfalso
          have he := Except.error.inj h
          have h80 : ((str (r"PLY format not specified in header")).headD 0) = 80 := rfl
          have h73 : ((str (r"Invalid PLY file: end_header not found")).headD 0) = 73 := rfl
          rw [he] at h80
          rw [h73] at h80
          cases h80
        · intro hn; exact absurd hwithin hn
      | some f =>
        rw [parsePLYHeader_foldOkFmt b i st f hf hfold hfmt]
        constructor
        · intro h; cases h
        · intro hn; exact absurd hwithin hn

/-- C7: when the header parses, headerLength sits just past the first
completion of the end_header marker, advanced over every immediately
following line-feed (10) or carriage-return (13) byte: every byte strictly
between the marker and headerLength is 10 or 13, and headerLength itself is
either the end of the buffer or a byte that is neither 10 nor 13. -/
theorem ply_headerLength_past_marker (b : Bytes) (h : PLYHeader)
    (hok : parsePLYHeader b = .ok h) :
    ∃ i, findMarkerEnd b = some i ∧ i + 1 ≤ h.headerLength ∧ h.headerLength ≤ b.len ∧
      (∀ p, i + 1 ≤ p → p < h.headerLength → (b.get p = 10 ∨ b.get p = 13)) ∧
      (h.headerLength = b.len ∨
        ¬(b.get h.headerLength = 10 ∨ b.get h.headerLength = 13)) := by
  cases hf : findMarkerEnd b with
  | none => rw [parsePLYHeader_none b hf] at hok; cases hok
  | some i =>
    cases hfold : List.foldlM processHeaderLine initHeaderState
        ((splitOnByte 10 (headerTextOf b i)).map trimBytes) with
    | error e => rw [parsePLYHeader_foldErr b i e hf hfold] at hok; cases hok
    | ok st =>
      cases hfmt : st.format with
      | none => rw [parsePLYHeader_foldOkNoFmt b i st hf hfold hfmt] at hok; cases hok
      | some f =>
        rw [parsePLYHeader_foldOkFmt b i st f hf hfold hfmt] at hok
        have hlen : h.headerLength = skipNewlines b (b.len - (i + 1)) (i + 1) := by
          cases hok; rfl
        have hi_le : i + 1 ≤ b.len := by
          have := (scanForMarker_some b (scanLimit b) 0 i hf).2.2
          simp only [scanLimit] at this
          omega
        refine ⟨i, rfl, ?_, ?_, ?_, ?_⟩
        · rw [hlen]; exact skipNewlines_ge b _ _
        · rw [hlen]
          have := skipNewlines_le b (b.len - (i + 1)) (i + 1)
          omega
        · intro p hp1 hp2
          rw [hlen] at hp2
          exact skipNewlines_between b _ _ p hp1 hp2
        · rw [hlen]
          rcases skipNewlines_stop b (b.len - (i + 1)) (i + 1) with hs | hs
          · left; omega
          · right; exact hs

/-- Witness for C7: on a header ending in end_header, carriage return, line
feed, headerLength is 50, the offset of the first byte after both. -/
theorem ply_headerLength_past_marker_witness :
    c7hdr.headerLength = 50 ∧
      (∃ i, findMarkerEnd c7buf = some i ∧ i + 1 ≤ c7hdr.headerLength ∧
        c7hdr.headerLength ≤ c7buf.len ∧
        (∀ p, i + 1 ≤ p → p < c7hdr.headerLength →
          (c7buf.get p = 10 ∨ c7buf.get p = 13)) ∧
        (c7hdr.headerLength = c7buf.len ∨
          ¬(c7buf.get c7hdr.headerLength = 10 ∨ c7buf.get c7hdr.headerLength = 13))) :=
  ⟨rfl, ply_headerLength_past_marker c7buf c7hdr (by decide)⟩

theorem flatMap_range_succ {α : Type} (f : Nat → List α) (n : Nat) :
    (List.range (n + 1)).flatMap f = f 0 ++ (List.range n).flatMap (fun m => f (m + 1)) := by
  rw [List.range_succ_eq_map, List.flatMap_cons, List.flatMap_map]

theorem asciiVertexLoop_eq (lines : List (List Nat)) (xI yI zI rI gI bI : Int) :
    ∀ n i, asciiVertexLoop lines xI yI zI rI gI bI n i =
      ((List.range n).flatMap
        (fun m => (asciiVertexStep xI yI zI rI gI bI (rowValues lines (i + m))).1),
       (List.range n).flatMap
        (fun m => (asciiVertexStep xI yI zI rI gI bI (rowValues lines (i + m))).2)) := by
  intro n
  induction n with
  | zero => intro i; rfl
  | succ n ih =>
    intro i
    have hfun1 : (fun m => (asciiVertexStep xI yI zI rI gI bI
          (rowValues lines (i + (m + 1)))).1)
        = (fun m => (asciiVertexStep xI yI zI rI gI bI
          (rowValues lines ((i + 1) + m))).1) := by
      funext m
      rw [show i + (m + 1) = (i + 1) + m from by omega]
    have hfun2 : (fun m => (asciiVertexStep xI yI zI rI gI bI
          (rowValues lines (i + (m + 1)))).2)
        = (fun m => (asciiVertexStep xI yI zI rI gI bI
          (rowValues lines ((i + 1) + m))).2) := by
      funext m
      rw [show i + (m + 1) = (i + 1) + m from by omega]
    simp only [asciiVertexLoop, ih (i + 1), flatMap_range_succ, hfun1, hfun2, Nat.add_zero]

theorem binVertexLoop_eq (b : Bytes) (off stride : Nat)
    (offs : List (Option (List Nat) × Nat)) (props : List PLYProp) (le : Bool) :
    ∀ n i, (∀ m, m < n → off + (i + m) * stride + stride ≤ b.len) →
      binVertexLoop b off stride offs props le n i =
        ((List.range n).flatMap
          (fun m => (binVertexStep b stride offs props le (off + (i + m) * stride)).1),
         (List.range n).flatMap
          (fun m => (binVertexStep b stride offs props le (off + (i + m) * stride)).2)) := by
  intro n
  induction n with
  | zero => intro i _; rfl
  | succ n ih =>
    intro i hnb
    have h0 : off + i * stride + stride ≤ b.len := by
      have := hnb 0 (by omega)
      simpa using this
    have hfun1 : (fun m => (binVertexStep b stride offs props le
          (off + (i + (m + 1)) * stride)).1)
        = (fun m => (binVertexStep b stride offs props le
          (off + ((i + 1) + m) * stride)).1) := by
      funext m
      rw [show i + (m + 1) = (i + 1) + m from by omega]
    have hfun2 : (fun m => (binVertexStep b stride offs props le
          (off + (i + (m + 1)) * stride)).2)
        = (fun m => (binVertexStep b stride offs props le
          (off + ((i + 1) + m) * stride)).2) := by
      funext m
      rw [show i + (m + 1) = (i + 1) + m from by omega]
    have hrec := ih (i + 1) (fun m hm => by
      have := hnb (m + 1) (by omega)
      rw [show i + (m + 1) = (i + 1) + m from by omega] at this
      exact this)
    simp only [binVertexLoop, hrec, flatMap_range_succ, hfun1, hfun2, Nat.add_zero]
    rw [if_neg (by omega)]

theorem asciiFaceLoop_eq (lines : List (List Nat)) (v : Int) (hv : 0 ≤ v) :
    ∀ fuel i, asciiFaceLoop lines (some v) fuel i =
      .ok ((List.range (min fuel (lines.length - (v.toNat + i)))).flatMap
        (fun m => faceIndices (rowValues lines (v.toNat + i + m)))) := by
  intro fuel
  induction fuel with
  | zero => intro i; simp [asciiFaceLoop]
  | succ fuel ih =>
    intro i
    by_cases hc : v + (i : Int) < (lines.length : Int)
    · have hlt : v.toNat + i < lines.length := by omega
      have hneg : ¬(v + (i : Int) < 0) := by omega
      have htn : (v + (i : Int)).toNat = v.toNat + i := by omega
      have hmin : min (fuel + 1) (lines.length - (v.toNat + i)) =
          (min fuel (lines.length - (v.toNat + (i + 1)))) + 1 := by omega
      have hfun : (fun m => faceIndices (rowValues lines (v.toNat + i + (m + 1))))
          = (fun m => faceIndices (rowValues lines (v.toNat + (i + 1) + m))) := by
        funext m
        rw [show v.toNat + i + (m + 1) = v.toNat + (i + 1) + m from by omega]
      simp only [asciiFaceLoop, if_pos hc, if_neg hneg, ih (i + 1), htn, hmin,
        flatMap_range_succ, hfun, Nat.add_zero]
    · have hz : lines.length - (v.toNat + i) = 0 := by omega
      simp only [asciiFaceLoop, if_neg hc, hz, Nat.min_zero, List.range_zero,
        List.flatMap_nil]

theorem parsePLYAscii_inv (b : Bytes) (h : PLYHeader) (g : Geometry)
    (hok : parsePLYAscii b h = .ok g) :
    (hasProp h.properties (str (r"x")) && hasProp h.properties (str (r"y"))
        && hasProp h.properties (str (r"z"))) = true ∧
    g.positions = (asciiVertexLoop (asciiLines b h.headerLength)
      (findIndexJS h.properties (str (r"x"))) (findIndexJS h.properties (str (r"y")))
      (findIndexJS h.properties (str (r"z"))) (findIndexJS h.properties (str (r"red")))
      (findIndexJS h.properties (str (r"green"))) (findIndexJS h.properties (str (r"blue")))
      (iterCount h.vertexCount (asciiLines b h.headerLength).length) 0).1 ∧
    g.colors = (asciiVertexLoop (asciiLines b h.headerLength)
      (findIndexJS h.properties (str (r"x"))) (findIndexJS h.properties (str (r"y")))
      (findIndexJS h.properties (str (r"z"))) (findIndexJS h.properties (str (r"red")))
      (findIndexJS h.properties (str (r"green"))) (findIndexJS h.properties (str (r"blue")))
      (iterCount h.vertexCount (asciiLines b h.headerLength).length) 0).2 ∧
    (if jsPosCount h.faceCount then
        asciiFaceLoop (asciiLines b h.headerLength) h.vertexCount
          (match h.faceCount with | none => 0 | some v => v.toNat) 0
      else .ok []) = .ok g.indices := by
  by_cases hc : (hasProp h.properties (str (r"x")) && hasProp h.properties (str (r"y"))
      && hasProp h.properties (str (r"z"))) = true
  · unfold parsePLYAscii at hok
    rw [if_pos hc] at hok
    cases hfr : (if jsPosCount h.faceCount then
        asciiFaceLoop (asciiLines b h.headerLength) h.vertexCount
          (match h.faceCount with | none => 0 | some v => v.toNat) 0
      else .ok []) with
    | error e =>
      rw [hfr] at hok
      cases hok
    | ok idx =>
      rw [hfr] at hok
      have hg := Except.ok.inj hok
      refine ⟨hc, ?_, ?_, ?_⟩
      · rw [← hg]; rfl
      · rw [← hg]; rfl
      · rw [← hg]; rfl
  · unfold parsePLYAscii at hok
    rw [if_neg hc] at hok
    cases hok

theorem parsePLYBinary_inv (b : Bytes) (h : PLYHeader) (le : Bool) (g : Geometry)
    (hok : parsePLYBinary b h le = .ok g) :
    (hasProp h.properties (str (r"x")) && hasProp h.properties (str (r"y"))
        && hasProp h.properties (str (r"z"))) = true ∧
    g.positions = (binVertexLoop b h.headerLength (strideOf h.properties)
      (propertyOffsets h.properties) h.properties le
      (binIterCount h.vertexCount b.len h.headerLength (strideOf h.properties)) 0).1 ∧
    g.colors = (binVertexLoop b h.headerLength (strideOf h.properties)
      (propertyOffsets h.properties) h.properties le
      (binIterCount h.vertexCount b.len h.headerLength (strideOf h.properties)) 0).2 ∧
    g.indices = [] := by
  by_cases hc : (hasProp h.properties (str (r"x")) && hasProp h.properties (str (r"y"))
      && hasProp h.properties (str (r"z"))) = true
  · unfold parsePLYBinary at hok
    rw [if_pos hc] at hok
    have hg := Except.ok.inj hok
    exact ⟨hc, by rw [← hg]; rfl, by rw [← hg]; rfl, by rw [← hg]; rfl⟩
  · unfold parsePLYBinary at hok
    rw [if_neg hc] at hok
    cases hok

theorem flatMap_length_le {α β : Type} (l : List α) (f g : α → List β)
    (h : ∀ x ∈ l, (g x).length ≤ (f x).length) :
    (l.flatMap g).length ≤ (l.flatMap f).length := by
  induction l with
  | nil => simp
  | cons a l ih =>
    simp only [List.flatMap_cons, List.length_append]
    have h1 := h a (by simp)
    have h2 := ih (fun x hx => h x (by simp [hx]))
    omega

theorem flatMap_length_dvd {α β : Type} (l : List α) (f : α → List β) (k : Nat)
    (h : ∀ x ∈ l, k ∣ (f x).length) : k ∣ (l.flatMap f).length := by
  induction l with
  | nil => simp
  | cons a l ih =>
    simp only [List.flatMap_cons, List.length_append]
    exact Nat.dvd_add (h a (by simp)) (ih (fun x hx => h x (by simp [hx])))

theorem flatMap_length_const {α β : Type} (l : List α) (f : α → List β) (k : Nat)
    (h : ∀ x ∈ l, (f x).length = k) : (l.flatMap f).length = k * l.length := by
  induction l with
  | nil => simp
  | cons a l ih =>
    simp only [List.flatMap_cons, List.length_append, List.length_cons]
    rw [h a (by simp), ih (fun x hx => h x (by simp [hx]))]
    ring

theorem flatMap_eq_nil {α β : Type} (l : List α) (f : α → List β)
    (h : ∀ x ∈ l, f x = []) : l.flatMap f = [] := by
  induction l with
  | nil => rfl
  | cons a l ih =>
    simp only [List.flatMap_cons, h a (by simp), List.nil_append]
    exact ih (fun x hx => h x (by simp [hx]))

theorem typeWidth_pos (t : List Nat) : 1 ≤ typeWidth t := by
  unfold typeWidth
  repeat' split
  all_goals omega

theorem buildOffsets_snd_ge (props : List PLYProp) : ∀ s, s ≤ (buildOffsets props s).2 := by
  induction props with
  | nil => intro s; exact Nat.le_refl _
  | cons p rest ih =>
    intro s
    have := ih (s + typeWidth p.type)
    simp only [buildOffsets]
    omega

theorem strideOf_pos (props : List PLYProp) (hne : props ≠ []) : 1 ≤ strideOf props := by
  cases props with
  | nil => cases hne rfl
  | cons p rest =>
    unfold strideOf
    simp only [buildOffsets]
    have h1 := typeWidth_pos p.type
    have h2 := buildOffsets_snd_ge rest (0 + typeWidth p.type)
    omega

theorem hasProp_exists (props : List PLYProp) (nm : List Nat)
    (h : hasProp props nm = true) : ∃ p, p ∈ props ∧ p.name = some nm := by
  unfold hasProp at h
  rcases List.any_eq_true.mp h with ⟨p, hp, hbeq⟩
  exact ⟨p, hp, by simpa using hbeq⟩

theorem hasProp_ne (props : List PLYProp) (nm : List Nat)
    (h : hasProp props nm = false) : ∀ p ∈ props, p.name ≠ some nm := by
  intro p hp he
  have : hasProp props nm = true := by
    unfold hasProp
    exact List.any_eq_true.mpr ⟨p, hp, by simp [he]⟩
  rw [h] at this
  cases this

theorem buildOffsets_keys (props : List PLYProp) :
    ∀ s, ((buildOffsets props s).1).map Prod.fst = props.map PLYProp.name := by
  induction props with
  | nil => intro s; rfl
  | cons p rest ih =>
    intro s
    simp only [buildOffsets, List.map_cons]
    rw [ih (s + typeWidth p.type)]

theorem lookupOffset_none (props : List PLYProp) (nm : List Nat)
    (h : ∀ p ∈ props, p.name ≠ some nm) :
    lookupOffset (propertyOffsets props) nm = none := by
  unfold lookupOffset
  cases hf : (propertyOffsets props).reverse.find? (fun e => e.1 == some nm) with
  | none => rfl
  | some e =>
    exfalso
    have hbeq := List.find?_some hf
    have hmem := List.mem_of_find?_eq_some hf
    rw [List.mem_reverse] at hmem
    have hkey : e.1 ∈ (propertyOffsets props).map Prod.fst :=
      List.mem_map_of_mem _ hmem
    rw [propertyOffsets, buildOffsets_keys props 0] at hkey
    rcases List.mem_map.mp hkey with ⟨p, hp, hpe⟩
    have he : e.1 = some nm := by simpa using hbeq
    exact h p hp (by rw [hpe, he])

theorem lookupOffset_isSome (props : List PLYProp) (nm : List Nat)
    (h : hasProp props nm = true) :
    (lookupOffset (propertyOffsets props) nm).isSome = true := by
  rcases hasProp_exists props nm h with ⟨p, hp, hname⟩
  unfold lookupOffset
  cases hf : (propertyOffsets props).reverse.find? (fun e => e.1 == some nm) with
  | some e => rfl
  | none =>
    exfalso
    have hall := List.find?_eq_none.mp hf
    have hkey : some nm ∈ (propertyOffsets props).map Prod.fst := by
      rw [propertyOffsets, buildOffsets_keys props 0]
      exact List.mem_map.mpr ⟨p, hp, hname⟩
    rcases List.mem_map.mp hkey with ⟨e, he, hfst⟩
    exact hall e (List.mem_reverse.mpr he) (by simp [hfst])

theorem readProperty_absent (b : Bytes) (vo stride : Nat) (nm : List Nat)
    (props : List PLYProp) (le : Bool) (h : ∀ p ∈ props, p.name ≠ some nm) :
    readProperty b vo stride nm (propertyOffsets props) props le = .num 0 := by
  unfold readProperty
  rw [lookupOffset_none props nm h]

theorem findIndexAux_none (p : PLYProp → Bool) :
    ∀ l k, (∀ x ∈ l, p x = false) → findIndexAux p l k = -1 := by
  intro l
  induction l with
  | nil => intro k _; rfl
  | cons a l ih =>
    intro k h
    unfold findIndexAux
    rw [h a (by simp)]
    simp only [Bool.false_eq_true, if_false]
    exact ih (k + 1) (fun x hx => h x (by simp [hx]))

theorem findIndexJS_none (props : List PLYProp) (nm : List Nat)
    (h : ∀ q ∈ props, q.name ≠ some nm) : findIndexJS props nm = -1 := by
  unfold findIndexJS
  exact findIndexAux_none _ props 0 (fun x hx => by simp [h x hx])

theorem binIterCount_noBreak (vc : Option Int) (len off stride : Nat)
    (hs : 1 ≤ stride) :
    ∀ m, m < binIterCount vc len off stride → off + (0 + m) * stride + stride ≤ len := by
  intro m hm
  cases vc with
  | none => simp [binIterCount] at hm
  | some v =>
    have hm1 : m < (if stride = 0 then v.toNat else min v.toNat ((len - off) / stride)) := hm
    rw [if_neg (by omega)] at hm1
    have hm2 : m < (len - off) / stride := lt_of_lt_of_le hm1 (min_le_right _ _)
    have h1 : (m + 1) * stride ≤ ((len - off) / stride) * stride :=
      Nat.mul_le_mul_right _ (by omega)
    have h2 : ((len - off) / stride) * stride ≤ len - off := Nat.div_mul_le_self _ _
    rw [Nat.succ_mul] at h1
    have h3 : (0 + m) * stride = m * stride := by rw [Nat.zero_add]
    rw [h3]
    omega

/-- C3: an input whose vertex element does not declare all of x, y and z is
rejected with the fatal missing-coordinates error by both the ASCII and the
binary decoder, so no partial geometry is produced and no coordinate is
defaulted. -/
theorem ply_missingCoordinateFatal (b : Bytes) (h : PLYHeader) (le : Bool)
    (hmiss : hasProp h.properties (str (r"x")) = false ∨
      hasProp h.properties (str (r"y")) = false ∨
      hasProp h.properties (str (r"z")) = false) :
    parsePLYAscii b h = .error (str (r"PLY file missing x, y, or z coordinates")) ∧
    parsePLYBinary b h le = .error (str (r"PLY file missing x, y, or z coordinates")) := by
  have hc : (hasProp h.properties (str (r"x")) && hasProp h.properties (str (r"y"))
      && hasProp h.properties (str (r"z"))) = false := by
    rcases hmiss with h1 | h1 | h1 <;> simp [h1]
  constructor
  · unfold parsePLYAscii
    simp only [hc, Bool.false_eq_true, if_false]
  · unfold parsePLYBinary
    simp only [hc, Bool.false_eq_true, if_false]

/-- Witness for C3: a real file declaring only x and y is rejected by both
decoders. -/
theorem ply_missingCoordinateFatal_witness :
    parsePLYHeader c3buf = .ok c3hdr ∧
    parsePLYAscii c3buf c3hdr =
      .error (str (r"PLY file missing x, y, or z coordinates")) ∧
    parsePLYBinary c3buf c3hdr true =
      .error (str (r"PLY file missing x, y, or z coordinates")) :=
  ⟨by decide, (ply_missingCoordinateFatal c3buf c3hdr true (by decide)).1,
   (ply_missingCoordinateFatal c3buf c3hdr true (by decide)).2⟩

/-- C2: with vertex properties declared in the order y, z, x, each decoded
vertex takes its x value from the third numeric column, its y value from the
first and its z value from the second, for every row with at least three
tokens. -/
theorem ply_asciiColumnOrder (t1 t2 t3 : List Nat) (b : Bytes) (hdr : PLYHeader)
    (g : Geometry)
    (hprops : hdr.properties = [⟨t1, some (str (r"y"))⟩, ⟨t2, some (str (r"z"))⟩,
      ⟨t3, some (str (r"x"))⟩])
    (hok : parsePLYAscii b hdr = .ok g) :
    g.positions = (List.range (iterCount hdr.vertexCount
        (asciiLines b hdr.headerLength).length)).flatMap
      (fun m =>
        if 3 ≤ (rowValues (asciiLines b hdr.headerLength) m).length then
          [jsElem (rowValues (asciiLines b hdr.headerLength) m) 2,
           jsElem (rowValues (asciiLines b hdr.headerLength) m) 0,
           jsElem (rowValues (asciiLines b hdr.headerLength) m) 1]
        else []) := by
  rcases parsePLYAscii_inv b hdr g hok with ⟨_, hpos, _, _⟩
  have hx : findIndexJS hdr.properties (str (r"x")) = 2 := by rw [hprops]; rfl
  have hy : findIndexJS hdr.properties (str (r"y")) = 0 := by rw [hprops]; rfl
  have hz : findIndexJS hdr.properties (str (r"z")) = 1 := by rw [hprops]; rfl
  have hr : findIndexJS hdr.properties (str (r"red")) = -1 := by rw [hprops]; rfl
  have hgr : findIndexJS hdr.properties (str (r"green")) = -1 := by rw [hprops]; rfl
  have hb : findIndexJS hdr.properties (str (r"blue")) = -1 := by rw [hprops]; rfl
  rw [hpos, hx, hy, hz, hr, hgr, hb, asciiVertexLoop_eq]
  dsimp only
  congr 1
  funext m
  rw [Nat.zero_add]
  unfold asciiVertexStep
  split
  · rfl
  · rfl

/-- Witness for C2: the row 1 2 3 under declarations y, z, x decodes to the
position triple (3, 1, 2), and 4 5 6 to (6, 4, 5). -/
theorem ply_asciiColumnOrder_witness :
    parsePLYHeader c2buf = .ok c2hdr ∧
    parsePLYAscii c2buf c2hdr = .ok c2geom ∧
    c2geom.positions = [.num 3, .num 1, .num 2, .num 6, .num 4, .num 5] := by
  refine ⟨by decide, by decide, ?_⟩
  have h := ply_asciiColumnOrder (str (r"float")) (str (r"float")) (str (r"float"))
    c2buf c2hdr c2geom rfl (by decide)
  rw [h]
  decide

theorem asciiVertexStep_shape (xI yI zI rI gI bI : Int) (vals : List JSNum) :
    ((asciiVertexStep xI yI zI rI gI bI vals).2.length = 0 ∨
      (asciiVertexStep xI yI zI rI gI bI vals).2.length = 3) ∧
    (asciiVertexStep xI yI zI rI gI bI vals).2.length ≤
      (asciiVertexStep xI yI zI rI gI bI vals).1.length := by
  unfold asciiVertexStep
  split
  · dsimp only
    split
    · exact ⟨Or.inr rfl, Nat.le_refl _⟩
    · exact ⟨Or.inl rfl, by simp⟩
  · exact ⟨Or.inl rfl, Nat.le_refl _⟩

theorem binVertexStep_fst_length (b : Bytes) (stride : Nat)
    (offs : List (Option (List Nat) × Nat)) (props : List PLYProp) (le : Bool)
    (vo : Nat) : ((binVertexStep b stride offs props le vo).1).length = 3 := rfl

theorem binVertexStep_snd_length_red (b : Bytes) (stride : Nat)
    (offs : List (Option (List Nat) × Nat)) (props : List PLYProp) (le : Bool)
    (vo : Nat) (hR : (lookupOffset offs (str (r"red"))).isSome = true) :
    ((binVertexStep b stride offs props le vo).2).length = 3 := by
  unfold binVertexStep
  dsimp only
  rw [hR, if_pos rfl]
  rfl

/-- C4 (amended): colors always come in whole triples and never outnumber
positions; the binary path is all-or-nothing (empty colors or exactly one
triple per decoded vertex), while the ASCII path emits a triple per vertex
row that covers the color columns, so colors can be non-empty yet shorter
than positions. -/
theorem ply_colorsShape (b : Bytes) (h : PLYHeader) (le : Bool) :
    (∀ g, parsePLYAscii b h = .ok g →
      3 ∣ g.colors.length ∧ g.colors.length ≤ g.positions.length) ∧
    (∀ g, parsePLYBinary b h le = .ok g →
      g.colors = [] ∨ g.colors.length = g.positions.length) := by
  constructor
  · intro g hok
    rcases parsePLYAscii_inv b h g hok with ⟨_, hpos, hcol, _⟩
    rw [hpos, hcol, asciiVertexLoop_eq]
    dsimp only
    constructor
    · refine flatMap_length_dvd _ _ 3 (fun m _ => ?_)
      rcases (asciiVertexStep_shape _ _ _ _ _ _ _).1 with h0 | h3
      · rw [h0]; exact ⟨0, rfl⟩
      · rw [h3]
    · exact flatMap_length_le _ _ _ (fun m _ => (asciiVertexStep_shape _ _ _ _ _ _ _).2)
  · intro g hok
    rcases parsePLYBinary_inv b h le g hok with ⟨hc, hpos, hcol, _⟩
    have hx : hasProp h.properties (str (r"x")) = true := by
      simp only [Bool.and_eq_true] at hc
      exact hc.1.1
    have hne : h.properties ≠ [] := by
      rcases hasProp_exists _ _ hx with ⟨p, hp, _⟩
      intro he
      rw [he] at hp
      cases hp
    have hstride := strideOf_pos _ hne
    rw [hpos, hcol, binVertexLoop_eq _ _ _ _ _ _ _ 0
      (binIterCount_noBreak _ _ _ _ hstride)]
    dsimp only
    cases hred : (lookupOffset (propertyOffsets h.properties) (str (r"red"))).isSome with
    | false =>
      left
      refine flatMap_eq_nil _ _ (fun m _ => ?_)
      unfold binVertexStep
      dsimp only
      rw [hred]
      simp only [Bool.false_eq_true, if_false]
    | true =>
      right
      rw [flatMap_length_const _ _ 3
            (fun m _ => binVertexStep_snd_length_red _ _ _ _ _ _ hred),
          flatMap_length_const _ _ 3
            (fun m _ => binVertexStep_fst_length _ _ _ _ _ _)]

/-- Counterexample for C4 as stated: a file whose second vertex row lacks
the color columns yields non-empty colors of length 3 against positions of
length 6, and its red channel 300/255 exceeds 1. -/
theorem ply_colorsShape_counterexample :
    parsePLYHeader c4buf = .ok c4hdr ∧
    parsePLYAscii c4buf c4hdr = .ok c4geom ∧
    c4geom.colors ≠ [] ∧
    c4geom.colors.length ≠ c4geom.positions.length ∧
    c4geom.colors.getD 0 (.num 0) = .num (Rat.divInt 20 17) ∧
    ¬((Rat.divInt 20 17 : ℚ) ≤ 1) :=
  ⟨by decide, by decide, by decide, by decide, by decide, by decide⟩

/-- Witness for the amended C4. -/
theorem ply_colorsShape_witness :
    (3 ∣ c4geom.colors.length ∧ c4geom.colors.length ≤ c4geom.positions.length) ∧
    (c10geom.colors = [] ∨ c10geom.colors.length = c10geom.positions.length) :=
  ⟨(ply_colorsShape c4buf c4hdr true).1 c4geom (by decide),
   (ply_colorsShape c10buf c10hdr true).2 c10geom (by decide)⟩

theorem parsePLYWithExpandedBuffer_ble (b : Bytes) (h : PLYHeader)
    (hhdr : parsePLYHeader (padBuffer b) = .ok h)
    (hfmt : h.format = .binary_little_endian) :
    parsePLYWithExpandedBuffer b = parsePLYBinary (padBuffer b) h true := by
  unfold parsePLYWithExpandedBuffer
  rw [hhdr]
  simp only [hfmt]

/-- C1 (amended): on a binary little-endian input the entry point decodes
min(declared count, floor((bufferLength + 1 MiB of padding - headerLength) /
stride)) vertices — the decoder clamps against the zero-padded copy it makes
of the caller's buffer, not against the caller's buffer itself. -/
theorem ply_paddedTruncationClamp (b : Bytes) (h : PLYHeader) (v : Int) (g : Geometry)
    (hhdr : parsePLYHeader (padBuffer b) = .ok h)
    (hfmt : h.format = .binary_little_endian)
    (hvc : h.vertexCount = some v)
    (hok : parsePLYWithExpandedBuffer b = .ok g) :
    g.positions.length = 3 * min v.toNat
      ((b.len + 1024 * 1024 - h.headerLength) / strideOf h.properties) := by
  rw [parsePLYWithExpandedBuffer_ble b h hhdr hfmt] at hok
  rcases parsePLYBinary_inv _ _ _ _ hok with ⟨hc, hpos, _, _⟩
  have hx : hasProp h.properties (str (r"x")) = true := by
    simp only [Bool.and_eq_true] at hc
    exact hc.1.1
  have hne : h.properties ≠ [] := by
    rcases hasProp_exists _ _ hx with ⟨p, hp, _⟩
    intro he
    rw [he] at hp
    cases hp
  have hstride := strideOf_pos _ hne
  rw [hpos, binVertexLoop_eq _ _ _ _ _ _ _ 0 (binIterCount_noBreak _ _ _ _ hstride)]
  dsimp only
  rw [flatMap_length_const _ _ 3 (fun m _ => binVertexStep_fst_length _ _ _ _ _ _),
    List.length_range]
  rw [hvc]
  have hred : binIterCount (some v) (padBuffer b).len h.headerLength
      (strideOf h.properties) = min v.toNat
      (((padBuffer b).len - h.headerLength) / strideOf h.properties) := by
    simp only [binIterCount]
    rw [if_neg (by omega)]
  rw [hred]
  rfl

/-- Counterexample for C1 as stated: a truncated binary file holding one
12-byte record under a declared count of 2 decodes 2 vertices (the second
from the zero padding), not the floor((bufferLength - headerLength) / stride)
= 1 vertex the claim requires. -/
theorem ply_paddedTruncation_counterexample :
    parsePLYHeader (padBuffer c1buf) = .ok c1hdr ∧
    parsePLYWithExpandedBuffer c1buf = .ok c1geom ∧
    c1geom.positions.length = 6 ∧
    (c1buf.len - c1hdr.headerLength) / strideOf c1hdr.properties = 1 ∧
    (6 : Nat) ≠ 3 * ((c1buf.len - c1hdr.headerLength) / strideOf c1hdr.properties) :=
  ⟨by decide, by decide, by decide, by decide, by decide⟩

/-- Witness for the amended C1. -/
theorem ply_paddedTruncationClamp_witness :
    c1geom.positions.length = 3 * min (2 : Int).toNat
      ((c1buf.len + 1024 * 1024 - c1hdr.headerLength) / strideOf c1hdr.properties) :=
  ply_paddedTruncationClamp c1buf c1hdr 2 c1geom (by decide) rfl rfl (by decide)

/-- C8: with properties x, y, z as float32 and red, green, blue as uint8 the
stride is 15 bytes, the record offsets are x = 0, y = 4, z = 8, red = 12,
green = 13, blue = 14, and vertex i's coordinates are read at byte
headerLength + i * 15 (plus the per-property offset) of the buffer. -/
theorem ply_binaryStrideLayout :
    strideOf c8props = 15 ∧
    lookupOffset (propertyOffsets c8props) (str (r"x")) = some 0 ∧
    lookupOffset (propertyOffsets c8props) (str (r"y")) = some 4 ∧
    lookupOffset (propertyOffsets c8props) (str (r"z")) = some 8 ∧
    lookupOffset (propertyOffsets c8props) (str (r"red")) = some 12 ∧
    lookupOffset (propertyOffsets c8props) (str (r"green")) = some 13 ∧
    lookupOffset (propertyOffsets c8props) (str (r"blue")) = some 14 ∧
    (∀ (b : Bytes) (h : PLYHeader) (g : Geometry),
      h.properties = c8props →
      parsePLYBinary b h true = .ok g →
      g.positions = (List.range
          (binIterCount h.vertexCount b.len h.headerLength 15)).flatMap
        (fun i => [getFloat32 b (h.headerLength + i * 15) true,
                   getFloat32 b (h.headerLength + i * 15 + 4) true,
                   getFloat32 b (h.headerLength + i * 15 + 8) true])) := by
  refine ⟨by decide, by decide, by decide, by decide, by decide, by decide, by decide, ?_⟩
  intro b h g hprops hok
  rcases parsePLYBinary_inv b h true g hok with ⟨_, hpos, _, _⟩
  rw [hprops] at hpos
  have hs : strideOf c8props = 15 := by decide
  rw [hs] at hpos
  rw [hpos, binVertexLoop_eq _ _ _ _ _ _ _ 0
    (binIterCount_noBreak _ _ _ _ (by omega))]
  dsimp only
  congr 1
  funext i
  rw [Nat.zero_add]
  rfl

/-- Witness for C8: the two 15-byte records of the c8 file decode to the
expected coordinates. -/
theorem ply_binaryStrideLayout_witness :
    parsePLYHeader c8buf = .ok c8hdr ∧
    parsePLYBinary c8buf c8hdr true = .ok c8geom ∧
    c8geom.positions = [.num 1, .num 2, .num 3, .num (-1), .num 0,
      .num (Rat.divInt 3 2)] := by
  refine ⟨by decide, by decide, ?_⟩
  have h := ply_binaryStrideLayout.2.2.2.2.2.2.2 c8buf c8hdr c8geom rfl (by decide)
  rw [h]
  decide

/-- C10: in the binary path a color triple is emitted for every decoded
vertex as soon as a red property is declared, even without green or blue:
the missing channels read as 0 and are divided by 255; the ASCII path, by
contrast, emits no color at all when green (or blue) is missing. -/
theorem ply_binaryRedOnlyColor (b : Bytes) (h : PLYHeader) (le : Bool)
    (hred : hasProp h.properties (str (r"red")) = true)
    (hgreen : hasProp h.properties (str (r"green")) = false)
    (hblue : hasProp h.properties (str (r"blue")) = false) :
    (∀ g, parsePLYBinary b h le = .ok g →
      g.colors.length = g.positions.length ∧
      g.colors = (List.range (binIterCount h.vertexCount b.len h.headerLength
          (strideOf h.properties))).flatMap
        (fun i => [(readProperty b (h.headerLength + i * strideOf h.properties)
            (strideOf h.properties) (str (r"red")) (propertyOffsets h.properties)
            h.properties le).div (.num 255),
          JSNum.div (.num 0) (.num 255), JSNum.div (.num 0) (.num 255)]) ∧
      JSNum.div (.num 0) (.num 255) = .num 0) ∧
    (∀ g, parsePLYAscii b h = .ok g → g.colors = []) := by
  have hR : (lookupOffset (propertyOffsets h.properties) (str (r"red"))).isSome = true :=
    lookupOffset_isSome _ _ hred
  constructor
  · intro g hok
    rcases parsePLYBinary_inv b h le g hok with ⟨hc, hpos, hcol, _⟩
    have hx : hasProp h.properties (str (r"x")) = true := by
      simp only [Bool.and_eq_true] at hc
      exact hc.1.1
    have hne : h.properties ≠ [] := by
      rcases hasProp_exists _ _ hx with ⟨p, hp, _⟩
      intro he
      rw [he] at hp
      cases hp
    have hstride := strideOf_pos _ hne
    refine ⟨?_, ?_, by decide⟩
    · rw [hpos, hcol, binVertexLoop_eq _ _ _ _ _ _ _ 0
        (binIterCount_noBreak _ _ _ _ hstride)]
      dsimp only
      rw [flatMap_length_const _ _ 3
            (fun m _ => binVertexStep_snd_length_red _ _ _ _ _ _ hR),
          flatMap_length_const _ _ 3
            (fun m _ => binVertexStep_fst_length _ _ _ _ _ _)]
    · rw [hcol, binVertexLoop_eq _ _ _ _ _ _ _ 0
        (binIterCount_noBreak _ _ _ _ hstride)]
      dsimp only
      congr 1
      funext i
      rw [Nat.zero_add]
      unfold binVertexStep
      dsimp only
      rw [hR, if_pos rfl]
      rw [readProperty_absent b _ _ _ _ le (hasProp_ne _ _ hgreen),
          readProperty_absent b _ _ _ _ le (hasProp_ne _ _ hblue)]
  · intro g hok
    rcases parsePLYAscii_inv b h g hok with ⟨_, _, hcol, _⟩
    have hgI : findIndexJS h.properties (str (r"green")) = -1 :=
      findIndexJS_none _ _ (hasProp_ne _ _ hgreen)
    rw [hcol, asciiVertexLoop_eq]
    dsimp only
    refine flatMap_eq_nil _ _ (fun m _ => ?_)
    rw [hgI]
    unfold asciiVertexStep
    split
    · dsimp only
      rw [if_neg (fun hcon => by
        have := hcon.2.1
        omega)]
    · rfl

/-- Witness for C10: a binary file declaring only red among the color
properties decodes one color triple (200/255, 0, 0) per vertex, while the
ASCII decoder on the same header emits no colors. -/
theorem ply_binaryRedOnlyColor_witness :
    parsePLYBinary c10buf c10hdr true = .ok c10geom ∧
    c10geom.colors.length = c10geom.positions.length ∧
    c10geom.colors = [.num (Rat.divInt 40 51), .num 0, .num 0] ∧
    parsePLYAscii c10buf c10hdr = .ok (⟨[], [], []⟩ : Geometry) ∧
    (⟨[], [], []⟩ : Geometry).colors = [] := by
  have h := ply_binaryRedOnlyColor c10buf c10hdr true (by decide) (by decide) (by decide)
  exact ⟨by decide, (h.1 c10geom (by decide)).1, by decide, by decide,
    h.2 ⟨[], [], []⟩ (by decide)⟩

/-- C6: the decoded index list is exactly the concatenation, over the face
lines, of faceIndices of each tokenised row: one triangle for a leading 3
with at least three references, the two fan triangles for a leading 4 with
at least four references, and nothing otherwise. -/
theorem ply_asciiFaceTriangulation (b : Bytes) (h : PLYHeader) (g : Geometry)
    (v fc : Int) (hv : h.vertexCount = some v) (hv0 : 0 ≤ v)
    (hfc : h.faceCount = some fc) (hfc0 : 0 < fc)
    (hok : parsePLYAscii b h = .ok g) :
    g.indices = (List.range (min fc.toNat
        ((asciiLines b h.headerLength).length - v.toNat))).flatMap
      (fun m => faceIndices (rowValues (asciiLines b h.headerLength) (v.toNat + m))) := by
  rcases parsePLYAscii_inv b h g hok with ⟨_, _, _, hface⟩
  rw [hv, hfc] at hface
  have hposc : jsPosCount (some fc) = true := by
    unfold jsPosCount
    exact decide_eq_true hfc0
  rw [if_pos hposc] at hface
  rw [asciiFaceLoop_eq (asciiLines b h.headerLength) v hv0] at hface
  exact (Except.ok.inj hface).symm

/-- Witness for C6: the face line 4 0 1 2 3 yields the indices
0, 1, 2, 0, 2, 3. -/
theorem ply_asciiFaceTriangulation_witness :
    parsePLYHeader c6buf = .ok c6hdr ∧
    parsePLYAscii c6buf c6hdr = .ok c6geom ∧
    c6geom.indices = [.num 0, .num 1, .num 2, .num 0, .num 2, .num 3] := by
  refine ⟨by decide, by decide, ?_⟩
  have h := ply_asciiFaceTriangulation c6buf c6hdr c6geom 1 1 rfl (by decide) rfl
    (by decide) (by decide)
  rw [h]
  decide

/-- C9: the parse is a pure function of the input bytes: byte-for-byte equal
buffers give identical results, and in particular equal positions, colors
and indices.  The embedding is state-free, mirroring the source, in which
each call builds all of its state locally. -/
theorem ply_parseDeterministic (b1 b2 : Bytes) (heq : b1 = b2) :
    parsePLYWithExpandedBuffer b1 = parsePLYWithExpandedBuffer b2 ∧
    ∀ g1 g2, parsePLYWithExpandedBuffer b1 = .ok g1 →
      parsePLYWithExpandedBuffer b2 = .ok g2 →
      g1.positions = g2.positions ∧ g1.colors = g2.colors ∧ g1.indices = g2.indices := by
  subst heq
  refine ⟨rfl, ?_⟩
  intro g1 g2 h1 h2
  rw [h1] at h2
  have hg := Except.ok.inj h2
  rw [hg]
  exact ⟨rfl, rfl, rfl⟩

/-- Witness for C9. -/
theorem ply_parseDeterministic_witness :
    parsePLYWithExpandedBuffer c9buf = parsePLYWithExpandedBuffer c9buf :=
  (ply_parseDeterministic c9buf c9buf rfl).1

end PLY
